import Mathlib

/-!
Verification of the Portfolio Valuation and Technical Indicator Engine.

Shallow embedding of the numeric core of the repository:
  - currency normalizer: detect_currency, convert_to_usd (src/utils/market_data.py);
  - portfolio aggregator: calculate_portfolio_metrics (src/utils/database.py);
  - indicator calculator: calculate_rsi, calculate_macd (src/utils/market_data.py);
  - signal interpreter: interpret_bollinger (src/utils/market_data.py).

Python floats are modelled as exact rationals; the pandas NaN/Inf semantics
needed by the RSI pipeline are modelled by the PFloat type below.  The network
rate fetched by get_usd_ars_rate is threaded as an explicit parameter
usd_ars_rate: the source obtains it from a time-cached Yahoo Finance call
inside convert_to_usd, so every embedded function that may convert ARS takes
the rate in effect at that call as an argument.
-/

/-- Python str.upper restricted to the embedding: uppercase every character. -/
def pyUpper (s : String) : String :=
  ⟨s.data.map Char.toUpper⟩

/-- Python str.endswith: character-level suffix test. -/
def pyEndsWith (s post : String) : Bool :=
  post.data.isSuffixOf s.data

/-- Embedding of detect_currency (src/utils/market_data.py, lines 30-56):
suffix match on the uppercased ticker, defaulting to USD. -/
def detect_currency (ticker : String) : String :=
  let ticker_upper := pyUpper ticker
  if pyEndsWith ticker_upper ".BA" then "ARS"
  else if pyEndsWith ticker_upper ".SA" then "BRL"
  else if pyEndsWith ticker_upper ".MX" then "MXN"
  else "USD"

/-- Embedding of convert_to_usd (src/utils/market_data.py, lines 58-86).
The source calls get_usd_ars_rate in the ARS branch; that fetched value is
the usd_ars_rate argument here. -/
def convert_to_usd (usd_ars_rate : ℚ) (price : ℚ) (currency : String) : ℚ :=
  if currency = "USD" then price
  else if currency = "ARS" then price / usd_ars_rate
  else if currency = "BRL" then price / 5
  else if currency = "MXN" then price / 17
  else price

/-- A row of the positions table, as consumed by calculate_portfolio_metrics. -/
structure PositionRow where
  id : ℕ
  ticker : String
  quantity : ℚ
  purchase_price : ℚ
  purchase_date : String
deriving DecidableEq

/-- An entry of the current_prices dictionary (built in src/pages/dashboard.py). -/
structure PriceInfo where
  price : ℚ
  currency : String
  price_usd : ℚ
deriving DecidableEq

/-- One element of positions_detail (src/utils/database.py, lines 220-234,
plus the allocation key added at lines 240-241). -/
structure PositionDetail where
  id : ℕ
  ticker : String
  quantity : ℚ
  purchase_price : ℚ
  purchase_price_usd : ℚ
  current_price : ℚ
  current_price_usd : ℚ
  currency : String
  invested : ℚ
  current_value : ℚ
  pnl : ℚ
  pnl_pct : ℚ
  purchase_date : String
  allocation : ℚ
deriving DecidableEq

/-- The dictionary returned by calculate_portfolio_metrics. -/
structure PortfolioMetrics where
  total_invested : ℚ
  total_value : ℚ
  total_pnl : ℚ
  total_pnl_pct : ℚ
  positions_detail : List PositionDetail
deriving DecidableEq

/-- Body of the first pass of calculate_portfolio_metrics for one position
(src/utils/database.py, lines 190-234): currency detection, conversion of the
purchase price, quote lookup with fall-back to the purchase price, and the
per-position arithmetic.  The allocation key is absent after the first pass;
it is initialised to 0 here and overwritten by the second pass. -/
def positionDetailOf (usd_ars_rate : ℚ) (current_prices : List (String × PriceInfo))
    (position : PositionRow) : PositionDetail :=
  let currency := detect_currency position.ticker
  let purchase_price_usd := convert_to_usd usd_ars_rate position.purchase_price currency
  let invested := position.quantity * purchase_price_usd
  let pc : ℚ × ℚ :=
    match current_prices.lookup position.ticker with
    | some price_info => (price_info.price, price_info.price_usd)
    | none => (position.purchase_price, purchase_price_usd)
  let current_value := position.quantity * pc.2
  let pnl := current_value - invested
  { id := position.id
    ticker := position.ticker
    quantity := position.quantity
    purchase_price := position.purchase_price
    purchase_price_usd := purchase_price_usd
    current_price := pc.1
    current_price_usd := pc.2
    currency := currency
    invested := invested
    current_value := current_value
    pnl := pnl
    pnl_pct := if invested > 0 then pnl / invested * 100 else 0
    purchase_date := position.purchase_date
    allocation := 0 }

/-- Embedding of the algorithm of calculate_portfolio_metrics
(src/utils/database.py, lines 166-249): empty-positions early return, first
pass over the positions, totals, and the second pass adding allocation. -/
def calculate_portfolio_metrics (usd_ars_rate : ℚ) (positions : List PositionRow)
    (current_prices : List (String × PriceInfo)) : PortfolioMetrics :=
  if positions.isEmpty then
    { total_invested := 0, total_value := 0, total_pnl := 0, total_pnl_pct := 0
      positions_detail := [] }
  else
    let details := positions.map (positionDetailOf usd_ars_rate current_prices)
    let total_invested := (details.map (fun d => d.invested)).sum
    let total_value := (details.map (fun d => d.current_value)).sum
    let total_pnl := total_value - total_invested
    { total_invested := total_invested
      total_value := total_value
      total_pnl := total_pnl
      total_pnl_pct := if total_invested > 0 then total_pnl / total_invested * 100 else 0
      positions_detail := details.map (fun d =>
        { d with allocation := if total_value > 0 then d.current_value / total_value * 100 else 0 }) }

/-- A Python runtime error relevant to the module-environment model. -/
inductive PyRuntimeError where
  | nameError : String → PyRuntimeError
deriving DecidableEq

/-- The global names bound at module level in src/utils/database.py: the four
imports of lines 5-8 and the functions the module itself defines.  Neither
detect_currency nor convert_to_usd is among them. -/
def databaseModuleGlobals : List String :=
  ["Client", "pd", "datetime", "st",
   "get_user_positions", "add_position", "update_position", "delete_position",
   "get_investor_profile", "update_investor_profile", "calculate_portfolio_metrics"]

/-- calculate_portfolio_metrics exactly as defined in src/utils/database.py:
the empty-positions path returns immediately, while the non-empty path first
resolves the global names detect_currency (line 196) and convert_to_usd
(line 199) in the module environment before any arithmetic runs; an
unresolvable name raises NameError. -/
def calculate_portfolio_metrics_databasePy (usd_ars_rate : ℚ) (positions : List PositionRow)
    (current_prices : List (String × PriceInfo)) : Except PyRuntimeError PortfolioMetrics :=
  if positions.isEmpty then
    .ok { total_invested := 0, total_value := 0, total_pnl := 0, total_pnl_pct := 0
          positions_detail := [] }
  else if "detect_currency" ∈ databaseModuleGlobals then
    if "convert_to_usd" ∈ databaseModuleGlobals then
      .ok (calculate_portfolio_metrics usd_ars_rate positions current_prices)
    else
      .error (.nameError "convert_to_usd")
  else
    .error (.nameError "detect_currency")

/-- Result dictionary of the signal-interpreter functions. -/
structure Interpretation where
  signal : String
  description : String
deriving DecidableEq

/-- Embedding of interpret_bollinger (src/utils/market_data.py, lines 361-387):
None-check, guarded normalized position, and the threshold chain.  The source
labels are Spanish: sobrecompra = overbought, sobreventa = oversold,
alcista = bullish, bajista = bearish. -/
def interpret_bollinger (current_price : ℚ) (upper middle lower : Option ℚ) : Interpretation :=
  match upper, middle, lower with
  | some u, some _, some l =>
    let band_range := u - l
    let position := if band_range > 0 then (current_price - l) / band_range else (1 : ℚ) / 2
    if position ≥ 9 / 10 then
      { signal := "sobrecompra", description := "Cerca de banda superior - Posible sobrecompra" }
    else if position ≤ 1 / 10 then
      { signal := "sobreventa", description := "Cerca de banda inferior - Posible sobreventa" }
    else if position > 1 / 2 then
      { signal := "alcista", description := "Por encima de la media" }
    else
      { signal := "bajista", description := "Por debajo de la media" }
  | _, _, _ => { signal := "neutral", description := "Datos insuficientes" }

/-- Sample position rows used by the concrete witnesses. -/
def aaplRow : PositionRow :=
  { id := 1, ticker := "AAPL", quantity := 10, purchase_price := 100, purchase_date := "2024-01-01" }

def aaplQuote : PriceInfo :=
  { price := 150, currency := "USD", price_usd := 150 }

def ypfdRow : PositionRow :=
  { id := 2, ticker := "YPFD.BA", quantity := 5, purchase_price := 1000, purchase_date := "2024-01-01" }

/-- Two character-level suffixes of the same list with equal length coincide. -/
theorem suffix_unique {l a b : List Char} (ha : a.isSuffixOf l = true)
    (hb : b.isSuffixOf l = true) (hlen : a.length = b.length) : a = b := by
  rw [List.isSuffixOf_iff_suffix] at ha hb
  exact (List.suffix_of_suffix_length_le ha hb (le_of_eq hlen)).eq_of_length hlen

/-- A string cannot end with two different suffixes of the same length. -/
theorem pyEndsWith_false_of_ne {s a b : String} (h : pyEndsWith s a = true)
    (hlen : a.data.length = b.data.length) (hne : a.data ≠ b.data) :
    pyEndsWith s b = false := by
  cases hb : pyEndsWith s b with
  | false => rfl
  | true => exact absurd (suffix_unique h hb hlen) hne

/-- C1: for every non-empty positions list, calculate_portfolio_metrics as
defined in src/utils/database.py fails with an unhandled NameError at its
first call to detect_currency, because the module never imports that name;
only the empty-positions path, returning all-zero totals and an empty
positions_detail list, is executable as written. -/
theorem claim_C1 (usd_ars_rate : ℚ) (positions : List PositionRow)
    (current_prices : List (String × PriceInfo)) :
    (positions ≠ [] →
      calculate_portfolio_metrics_databasePy usd_ars_rate positions current_prices =
        .error (.nameError "detect_currency")) ∧
    (positions = [] →
      calculate_portfolio_metrics_databasePy usd_ars_rate positions current_prices =
        .ok { total_invested := 0, total_value := 0, total_pnl := 0, total_pnl_pct := 0,
              positions_detail := [] }) := by
  constructor
  · intro h
    have hne : positions.isEmpty = false := by
      cases positions with
      | nil => exact absurd rfl h
      | cons p ps => rfl
    have hmem : ¬ ("detect_currency" ∈ databaseModuleGlobals) := by decide
    simp [calculate_portfolio_metrics_databasePy, hne, hmem]
  · intro h
    subst h
    rfl

theorem claim_C1_witness :
    ([aaplRow] : List PositionRow) ≠ [] ∧
    calculate_portfolio_metrics_databasePy 1000 [aaplRow] [] =
      .error (.nameError "detect_currency") :=
  ⟨by decide, (claim_C1 1000 [aaplRow] []).1 (by decide)⟩

/-- C4 counterexample: the source's convert_to_usd silently returns the amount
unchanged for a currency outside {USD, ARS, BRL, MXN}; it has no failing
branch, contradicting the claim that it fails with a ConversionError. -/
theorem claim_C4_counterexample :
    convert_to_usd 1000 42 "EUR" = 42 ∧
    ¬ ("EUR" ∈ (["USD", "ARS", "BRL", "MXN"] : List String)) := by
  constructor
  · rfl
  · decide

/-- C4 amended: for every amount and every currency code outside
{USD, ARS, BRL, MXN}, convert_to_usd returns the amount unchanged (the
"unknown implies passthrough" policy): it never raises. -/
theorem claim_C4 (usd_ars_rate price : ℚ) (currency : String)
    (h : currency ∉ (["USD", "ARS", "BRL", "MXN"] : List String)) :
    convert_to_usd usd_ars_rate price currency = price := by
  simp only [List.mem_cons, List.not_mem_nil, or_false, not_or] at h
  obtain ⟨h1, h2, h3, h4⟩ := h
  simp [convert_to_usd, h1, h2, h3, h4]

theorem claim_C4_witness :
    ("EUR" ∉ (["USD", "ARS", "BRL", "MXN"] : List String)) ∧
    convert_to_usd 1000 42 "EUR" = 42 :=
  ⟨by decide, claim_C4 1000 42 "EUR" (by decide)⟩

/-- C5: detect_currency is total, matches the ticker suffix on the uppercased
ticker (hence case-insensitively), returns ARS for suffix .BA, BRL for .SA,
MXN for .MX and USD for every other ticker, and satisfies the three concrete
examples of the spec. -/
theorem claim_C5 (t : String) :
    (detect_currency t = "ARS" ∨ detect_currency t = "BRL" ∨
      detect_currency t = "MXN" ∨ detect_currency t = "USD") ∧
    (pyEndsWith (pyUpper t) ".BA" = true → detect_currency t = "ARS") ∧
    (pyEndsWith (pyUpper t) ".SA" = true → detect_currency t = "BRL") ∧
    (pyEndsWith (pyUpper t) ".MX" = true → detect_currency t = "MXN") ∧
    (pyEndsWith (pyUpper t) ".BA" = false → pyEndsWith (pyUpper t) ".SA" = false →
      pyEndsWith (pyUpper t) ".MX" = false → detect_currency t = "USD") ∧
    detect_currency "AAPL" = "USD" ∧ detect_currency "ypfd.ba" = "ARS" ∧
    detect_currency "PETR4.SA" = "BRL" := by
  refine ⟨?_, ?_, ?_, ?_, ?_, by decide, by decide, by decide⟩
  · simp only [detect_currency]
    split_ifs <;> tauto
  · intro h
    simp [detect_currency, h]
  · intro h
    have hba : pyEndsWith (pyUpper t) ".BA" = false :=
      pyEndsWith_false_of_ne h (by decide) (by decide)
    simp [detect_currency, h, hba]
  · intro h
    have hba : pyEndsWith (pyUpper t) ".BA" = false :=
      pyEndsWith_false_of_ne h (by decide) (by decide)
    have hsa : pyEndsWith (pyUpper t) ".SA" = false :=
      pyEndsWith_false_of_ne h (by decide) (by decide)
    simp [detect_currency, h, hba, hsa]
  · intro h1 h2 h3
    simp [detect_currency, h1, h2, h3]

theorem claim_C5_witness :
    pyEndsWith (pyUpper "ypfd.ba") ".BA" = true ∧ detect_currency "ypfd.ba" = "ARS" :=
  ⟨by decide, (claim_C5 "ypfd.ba").2.1 (by decide)⟩

/-- C9 counterexample: with numeric bands all equal (upper = middle = lower =
price = 10, the constant-series case), interpret_bollinger returns the signal
"bajista" (bearish), not "alcista" (bullish) as the claim states. -/
theorem claim_C9_counterexample :
    (interpret_bollinger 10 (some 10) (some 10) (some 10)).signal = "bajista" ∧
    (interpret_bollinger 10 (some 10) (some 10) (some 10)).signal ≠ "alcista" := by
  have h : (interpret_bollinger 10 (some 10) (some 10) (some 10)).signal = "bajista" := by
    norm_num [interpret_bollinger]
  rw [h]
  exact ⟨rfl, by decide⟩

/-- C9 amended: whenever the interpreter receives numeric bands with
upper = lower, it does not divide by zero: the band_range > 0 guard fails, the
normalized position defaults to 0.5, and the returned signal is "bajista"
(bearish, the else branch of the threshold chain), for every price and middle
band. -/
theorem claim_C9 (current_price u m : ℚ) :
    interpret_bollinger current_price (some u) (some m) (some u) =
      { signal := "bajista", description := "Por debajo de la media" } := by
  have h : ¬ ((u - u : ℚ) > 0) := by simp
  simp only [interpret_bollinger, h, if_false]
  norm_num

/-- Distributing a sum over an allocation map: each value divided by T and
scaled to percent sums to the scaled total. -/
theorem sum_map_div_mul (l : List ℚ) (T : ℚ) :
    (l.map (fun v => v / T * 100)).sum = l.sum / T * 100 := by
  induction l with
  | nil => simp
  | cons x xs ih => simp [ih, add_div, add_mul]

/-- C2: whenever the computed total_value is strictly positive, the
per-position allocations produced by calculate_portfolio_metrics sum to 100
(within the claimed 1e-6 tolerance; in exact rational arithmetic the sum is
exactly 100), and when total_value is 0 every position's allocation is 0. -/
theorem claim_C2 (usd_ars_rate : ℚ) (positions : List PositionRow)
    (current_prices : List (String × PriceInfo)) :
    (0 < (calculate_portfolio_metrics usd_ars_rate positions current_prices).total_value →
      |((calculate_portfolio_metrics usd_ars_rate positions current_prices).positions_detail.map
          (fun d => d.allocation)).sum - 100| ≤ 1 / 1000000) ∧
    ((calculate_portfolio_metrics usd_ars_rate positions current_prices).total_value = 0 →
      ∀ d ∈ (calculate_portfolio_metrics usd_ars_rate positions current_prices).positions_detail,
        d.allocation = 0) := by
  cases positions with
  | nil =>
    constructor
    · intro hpos
      simp [calculate_portfolio_metrics] at hpos
    · intro _ d hd
      simp [calculate_portfolio_metrics] at hd
  | cons p ps =>
    simp only [calculate_portfolio_metrics, List.isEmpty_cons, Bool.false_eq_true, if_false]
    set L := (p :: ps).map (positionDetailOf usd_ars_rate current_prices) with hL
    set T := (L.map (fun d => d.current_value)).sum with hT
    constructor
    · intro hpos
      rw [List.map_map]
      have hcomp : ((fun d : PositionDetail => d.allocation) ∘
          (fun d : PositionDetail =>
            { d with allocation := if T > 0 then d.current_value / T * 100 else 0 })) =
          fun d : PositionDetail => if T > 0 then d.current_value / T * 100 else 0 := rfl
      rw [hcomp]
      simp only [gt_iff_lt, hpos, if_true]
      have hsplit : L.map (fun d => d.current_value / T * 100) =
          (L.map (fun d => d.current_value)).map (fun v => v / T * 100) := by
        conv_rhs => rw [List.map_map]
        rfl
      rw [hsplit, sum_map_div_mul, ← hT, div_self (ne_of_gt hpos)]
      norm_num
    · intro hzero d hd
      obtain ⟨d0, _, rfl⟩ := List.mem_map.1 hd
      show (if T > 0 then d0.current_value / T * 100 else 0) = 0
      rw [hzero]
      norm_num

theorem claim_C2_witness :
    0 < (calculate_portfolio_metrics 1000 [aaplRow] [("AAPL", aaplQuote)]).total_value ∧
    |((calculate_portfolio_metrics 1000 [aaplRow] [("AAPL", aaplQuote)]).positions_detail.map
        (fun d => d.allocation)).sum - 100| ≤ 1 / 1000000 := by
  have h1 : detect_currency "AAPL" = "USD" := by decide
  have h : 0 < (calculate_portfolio_metrics 1000 [aaplRow] [("AAPL", aaplQuote)]).total_value := by
    norm_num [calculate_portfolio_metrics, positionDetailOf, aaplRow, aaplQuote, h1,
      convert_to_usd, List.lookup]
  exact ⟨h, (claim_C2 1000 [aaplRow] [("AAPL", aaplQuote)]).1 h⟩

/-- C3: every position detail returned by calculate_portfolio_metrics
satisfies pnl = current_value - invested exactly, with
invested = quantity * purchase_price_usd and
current_value = quantity * current_price_usd (exact equalities of the
embedded arithmetic, mirroring the assignments of database.py lines 202-214). -/
theorem claim_C3 (usd_ars_rate : ℚ) (positions : List PositionRow)
    (current_prices : List (String × PriceInfo)) :
    ∀ d ∈ (calculate_portfolio_metrics usd_ars_rate positions current_prices).positions_detail,
      d.pnl = d.current_value - d.invested ∧
      d.invested = d.quantity * d.purchase_price_usd ∧
      d.current_value = d.quantity * d.current_price_usd := by
  intro d hd
  unfold calculate_portfolio_metrics at hd
  split at hd
  · simp at hd
  · simp only [List.map_map, List.mem_map, Function.comp] at hd
    obtain ⟨p, hp, rfl⟩ := hd
    exact ⟨rfl, rfl, rfl⟩

/-- The detail row the AAPL scenario of spec section 8 produces. -/
def aaplDetail : PositionDetail :=
  { id := 1, ticker := "AAPL", quantity := 10, purchase_price := 100, purchase_price_usd := 100,
    current_price := 150, current_price_usd := 150, currency := "USD", invested := 1000,
    current_value := 1500, pnl := 500, pnl_pct := 50, purchase_date := "2024-01-01",
    allocation := 100 }

theorem claim_C3_witness :
    aaplDetail ∈ (calculate_portfolio_metrics 1000 [aaplRow] [("AAPL", aaplQuote)]).positions_detail ∧
    (aaplDetail.pnl = aaplDetail.current_value - aaplDetail.invested ∧
      aaplDetail.invested = aaplDetail.quantity * aaplDetail.purchase_price_usd ∧
      aaplDetail.current_value = aaplDetail.quantity * aaplDetail.current_price_usd) := by
  have h1 : detect_currency "AAPL" = "USD" := by decide
  have hlist : (calculate_portfolio_metrics 1000 [aaplRow] [("AAPL", aaplQuote)]).positions_detail =
      [aaplDetail] := by
    norm_num [calculate_portfolio_metrics, positionDetailOf, aaplRow, aaplQuote, aaplDetail,
      h1, convert_to_usd, List.lookup]
  have hmem : aaplDetail ∈
      (calculate_portfolio_metrics 1000 [aaplRow] [("AAPL", aaplQuote)]).positions_detail := by
    rw [hlist]
    exact List.mem_singleton.2 rfl
  exact ⟨hmem, claim_C3 1000 [aaplRow] [("AAPL", aaplQuote)] aaplDetail hmem⟩

/-- The detail row the YPFD.BA missing-quote scenario of spec section 8
produces: purchase price 1000 ARS at rate 1000 gives 1 USD, the missing quote
falls back to the purchase price, and pnl is 0. -/
def ypfdDetail : PositionDetail :=
  { id := 2, ticker := "YPFD.BA", quantity := 5, purchase_price := 1000, purchase_price_usd := 1,
    current_price := 1000, current_price_usd := 1, currency := "ARS", invested := 5,
    current_value := 5, pnl := 0, pnl_pct := 0, purchase_date := "2024-01-01",
    allocation := 100 }

/-- C6: a position whose ticker has no entry in current_prices falls back to
the purchase price as current price, so its pnl is exactly 0 (no error is
raised: the embedding is total); and the concrete YPFD.BA scenario with rate
1000 yields purchase_price_usd 1, invested 5, current_value 5 and pnl 0. -/
theorem claim_C6 (usd_ars_rate : ℚ) (positions : List PositionRow)
    (current_prices : List (String × PriceInfo)) :
    (∀ d ∈ (calculate_portfolio_metrics usd_ars_rate positions current_prices).positions_detail,
        current_prices.lookup d.ticker = none → d.pnl = 0) ∧
    ((calculate_portfolio_metrics 1000 [ypfdRow] []).positions_detail.map
        (fun d => (d.purchase_price_usd, d.invested, d.current_value, d.pnl))) =
      [((1 : ℚ), (5 : ℚ), (5 : ℚ), (0 : ℚ))] := by
  constructor
  · intro d hd hnone
    unfold calculate_portfolio_metrics at hd
    split at hd
    · simp at hd
    · simp only [List.map_map, List.mem_map, Function.comp] at hd
      obtain ⟨p, hp, rfl⟩ := hd
      have htick : ({ positionDetailOf usd_ars_rate current_prices p with
          allocation := if ((positions.map (positionDetailOf usd_ars_rate current_prices)).map
              (fun d => d.current_value)).sum > 0 then
            (positionDetailOf usd_ars_rate current_prices p).current_value /
              ((positions.map (positionDetailOf usd_ars_rate current_prices)).map
                (fun d => d.current_value)).sum * 100
          else 0 } : PositionDetail).ticker = p.ticker := rfl
      rw [htick] at hnone
      show (positionDetailOf usd_ars_rate current_prices p).pnl = 0
      unfold positionDetailOf
      simp only [hnone]
      ring
  · have h1 : detect_currency "YPFD.BA" = "ARS" := by decide
    have h2 : ("ARS" : String) ≠ "USD" := by decide
    norm_num [calculate_portfolio_metrics, positionDetailOf, ypfdRow, h1, h2,
      convert_to_usd, List.lookup]

theorem claim_C6_witness :
    ypfdDetail ∈ (calculate_portfolio_metrics 1000 [ypfdRow] []).positions_detail ∧
    ([] : List (String × PriceInfo)).lookup ypfdDetail.ticker = none ∧
    ypfdDetail.pnl = 0 := by
  have h1 : detect_currency "YPFD.BA" = "ARS" := by decide
  have h2 : ("ARS" : String) ≠ "USD" := by decide
  have hlist : (calculate_portfolio_metrics 1000 [ypfdRow] []).positions_detail =
      [ypfdDetail] := by
    norm_num [calculate_portfolio_metrics, positionDetailOf, ypfdRow, ypfdDetail, h1, h2,
      convert_to_usd, List.lookup]
  have hmem : ypfdDetail ∈ (calculate_portfolio_metrics 1000 [ypfdRow] []).positions_detail := by
    rw [hlist]
    exact List.mem_singleton.2 rfl
  exact ⟨hmem, rfl, (claim_C6 1000 [ypfdRow] []).1 ypfdDetail hmem rfl⟩

/-- C10 counterexample: two calls with identical positions and current_prices
arguments but different internally fetched USD/ARS rates (the value of
get_usd_ars_rate at each call) return different metrics, so the aggregation
is not a pure function of positions and current_prices alone. -/
theorem claim_C10_counterexample :
    calculate_portfolio_metrics 1000 [ypfdRow] [] ≠ calculate_portfolio_metrics 500 [ypfdRow] [] := by
  intro hEq
  have hc : detect_currency "YPFD.BA" = "ARS" := by decide
  have hne : ("ARS" : String) ≠ "USD" := by decide
  have h1 : (calculate_portfolio_metrics 1000 [ypfdRow] []).total_invested = 5 := by
    norm_num [calculate_portfolio_metrics, positionDetailOf, ypfdRow, hc, hne,
      convert_to_usd, List.lookup]
  have h2 : (calculate_portfolio_metrics 500 [ypfdRow] []).total_invested = 10 := by
    norm_num [calculate_portfolio_metrics, positionDetailOf, ypfdRow, hc, hne,
      convert_to_usd, List.lookup]
  rw [hEq, h2] at h1
  norm_num at h1

/-- C10 amended: the aggregation is deterministic as a function of positions,
current_prices and the USD/ARS rate in effect at the internal
get_usd_ars_rate call; in particular, when no position's detected currency is
ARS, the output does not depend on the fetched rate at all. -/
theorem claim_C10 (r r' : ℚ) (positions : List PositionRow)
    (current_prices : List (String × PriceInfo))
    (h : ∀ p ∈ positions, detect_currency p.ticker ≠ "ARS") :
    calculate_portfolio_metrics r positions current_prices =
      calculate_portfolio_metrics r' positions current_prices := by
  have hconv : ∀ p ∈ positions,
      positionDetailOf r current_prices p = positionDetailOf r' current_prices p := by
    intro p hp
    have hc := h p hp
    have hcu : convert_to_usd r p.purchase_price (detect_currency p.ticker) =
        convert_to_usd r' p.purchase_price (detect_currency p.ticker) := by
      simp [convert_to_usd, hc]
    simp only [positionDetailOf]
    rw [hcu]
  simp only [calculate_portfolio_metrics]
  rw [List.map_congr_left hconv]

theorem claim_C10_witness :
    (∀ p ∈ [aaplRow], detect_currency p.ticker ≠ "ARS") ∧
    calculate_portfolio_metrics 1000 [aaplRow] [("AAPL", aaplQuote)] =
      calculate_portfolio_metrics 500 [aaplRow] [("AAPL", aaplQuote)] := by
  have h : ∀ p ∈ [aaplRow], detect_currency p.ticker ≠ "ARS" := by
    intro p hp
    rw [List.mem_singleton] at hp
    subst hp
    decide
  exact ⟨h, claim_C10 1000 500 [aaplRow] [("AAPL", aaplQuote)] h⟩

/-- The adjust=false exponential moving average recurrence of pandas
Series.ewm(span, adjust=False).mean(), continued from a previous value:
each output is a * x + (1 - a) * previous. -/
def ewmRec (a : ℚ) (prev : ℚ) : List ℚ → List ℚ
  | [] => []
  | x :: xs => (a * x + (1 - a) * prev) :: ewmRec a (a * x + (1 - a) * prev) xs

/-- Series.ewm(span, adjust=False).mean() over a close series: seeded from
the first observation, smoothing factor 2 / (span + 1). -/
def ewm_mean (span : ℕ) (xs : List ℚ) : List ℚ :=
  match xs with
  | [] => []
  | x :: rest => x :: ewmRec (2 / ((span : ℚ) + 1)) x rest

/-- Embedding of calculate_macd (src/utils/market_data.py, lines 188-208):
fast and slow EMAs of close, their pointwise difference, the signal EMA of
the MACD line, and the histogram. -/
def calculate_macd (close : List ℚ) (fast slow signal : ℕ) :
    List ℚ × List ℚ × List ℚ :=
  let exp1 := ewm_mean fast close
  let exp2 := ewm_mean slow close
  let macd := List.zipWith (fun a b => a - b) exp1 exp2
  let signal_line := ewm_mean signal macd
  let histogram := List.zipWith (fun a b => a - b) macd signal_line
  (macd, signal_line, histogram)

/-- The EMA recurrence stated by the spec: same length as the input,
ema[0] = close[0], and ema[t+1] = a * close[t+1] + (1 - a) * ema[t]. -/
def IsEMA (a : ℚ) (close ema : List ℚ) : Prop :=
  ema.length = close.length ∧
  (∀ x, close.head? = some x → ema.head? = some x) ∧
  (∀ t x p, close[t + 1]? = some x → ema[t]? = some p →
    ema[t + 1]? = some (a * x + (1 - a) * p))

theorem ewmRec_length (a prev : ℚ) (xs : List ℚ) : (ewmRec a prev xs).length = xs.length := by
  induction xs generalizing prev with
  | nil => rfl
  | cons x xs ih => simp [ewmRec, ih]

/-- One step of the EMA recurrence inside an ewmRec chain. -/
theorem ewmRec_step (a : ℚ) (xs : List ℚ) :
    ∀ (prev : ℚ) (t : ℕ) (x p : ℚ), xs[t]? = some x →
      (prev :: ewmRec a prev xs)[t]? = some p →
      (prev :: ewmRec a prev xs)[t + 1]? = some (a * x + (1 - a) * p) := by
  induction xs with
  | nil =>
    intro prev t x p hx hp
    simp at hx
  | cons y ys ih =>
    intro prev t x p hx hp
    cases t with
    | zero =>
      simp only [List.getElem?_cons_zero, Option.some.injEq] at hx hp
      subst hx
      subst hp
      simp [ewmRec]
    | succ u =>
      simp only [List.getElem?_cons_succ] at hx hp ⊢
      rw [show ewmRec a prev (y :: ys) =
        (a * y + (1 - a) * prev) :: ewmRec a (a * y + (1 - a) * prev) ys from rfl] at hp ⊢
      exact ih (a * y + (1 - a) * prev) u x p hx hp

/-- ewm_mean satisfies the spec's EMA recurrence with a = 2 / (span + 1). -/
theorem ewm_mean_isEMA (span : ℕ) (xs : List ℚ) :
    IsEMA (2 / ((span : ℚ) + 1)) xs (ewm_mean span xs) := by
  cases xs with
  | nil =>
    refine ⟨rfl, ?_, ?_⟩
    · intro x hx
      simp at hx
    · intro t x p hx hp
      simp at hx
  | cons c cs =>
    refine ⟨?_, ?_, ?_⟩
    · simp [ewm_mean, ewmRec_length]
    · intro x hx
      simp only [List.head?_cons, Option.some.injEq] at hx
      simp [ewm_mean, hx]
    · intro t x p hx hp
      simp only [List.getElem?_cons_succ] at hx
      exact ewmRec_step _ cs c t x p hx hp

/-- C8: for every non-empty close series, calculate_macd returns
(macd, signal, histogram) where macd is the pointwise difference of the
span-12 and span-26 EMAs of close, signal is the span-9 EMA of macd,
histogram is macd minus signal, and each EMA satisfies the adjust=false
recurrence ema[0] = close[0], ema[t+1] = a * close[t+1] + (1 - a) * ema[t]
with a = 2 / (span + 1). -/
theorem claim_C8 (close : List ℚ) (h : close ≠ []) :
    (calculate_macd close 12 26 9).1 =
      List.zipWith (fun a b => a - b) (ewm_mean 12 close) (ewm_mean 26 close) ∧
    IsEMA (2 / 13) close (ewm_mean 12 close) ∧
    IsEMA (2 / 27) close (ewm_mean 26 close) ∧
    IsEMA (2 / 10) (calculate_macd close 12 26 9).1 (calculate_macd close 12 26 9).2.1 ∧
    (calculate_macd close 12 26 9).2.2 =
      List.zipWith (fun a b => a - b) (calculate_macd close 12 26 9).1
        (calculate_macd close 12 26 9).2.1 := by
  have h12 : ((2 : ℚ) / ((12 : ℕ) + 1 : ℚ)) = 2 / 13 := by norm_num
  have h26 : ((2 : ℚ) / ((26 : ℕ) + 1 : ℚ)) = 2 / 27 := by norm_num
  have h9 : ((2 : ℚ) / ((9 : ℕ) + 1 : ℚ)) = 2 / 10 := by norm_num
  refine ⟨rfl, ?_, ?_, ?_, rfl⟩
  · rw [← h12]
    exact ewm_mean_isEMA 12 close
  · rw [← h26]
    exact ewm_mean_isEMA 26 close
  · rw [← h9]
    exact ewm_mean_isEMA 9 _

theorem claim_C8_witness :
    (([1, 2] : List ℚ) ≠ []) ∧
    (IsEMA (2 / 13) [1, 2] (ewm_mean 12 [1, 2]) ∧
      IsEMA (2 / 10) (calculate_macd [1, 2] 12 26 9).1 (calculate_macd [1, 2] 12 26 9).2.1) :=
  ⟨by decide, (claim_C8 [1, 2] (by decide)).2.1, (claim_C8 [1, 2] (by decide)).2.2.2.1⟩

/-- Model of the pandas float values flowing through the RSI pipeline:
NaN, positive and negative infinity, and finite numbers (as exact rationals). -/
inductive PFloat where
  | nan : PFloat
  | inf : PFloat
  | ninf : PFloat
  | num : ℚ → PFloat
deriving DecidableEq

namespace PFloat

/-- IEEE-style addition restricted to the cases the pipeline can produce. -/
def add : PFloat → PFloat → PFloat
  | nan, _ => nan
  | _, nan => nan
  | inf, ninf => nan
  | ninf, inf => nan
  | inf, _ => inf
  | _, inf => inf
  | ninf, _ => ninf
  | _, ninf => ninf
  | num a, num b => num (a + b)

/-- IEEE-style subtraction. -/
def sub : PFloat → PFloat → PFloat
  | nan, _ => nan
  | _, nan => nan
  | inf, inf => nan
  | ninf, ninf => nan
  | inf, _ => inf
  | _, inf => ninf
  | ninf, _ => ninf
  | _, ninf => inf
  | num a, num b => num (a - b)

/-- IEEE-style division: x/0 is signed infinity for x nonzero and NaN for
x = 0 (the rule that makes pandas produce NaN for a constant close series). -/
def div : PFloat → PFloat → PFloat
  | nan, _ => nan
  | _, nan => nan
  | inf, inf => nan
  | inf, ninf => nan
  | ninf, inf => nan
  | ninf, ninf => nan
  | inf, num b => if b < 0 then ninf else inf
  | ninf, num b => if b < 0 then inf else ninf
  | num _, inf => num 0
  | num _, ninf => num 0
  | num a, num b =>
    if b = 0 then
      if a = 0 then nan else if 0 < a then inf else ninf
    else num (a / b)

/-- IEEE-style negation. -/
def neg : PFloat → PFloat
  | nan => nan
  | inf => ninf
  | ninf => inf
  | num a => num (-a)

/-- The comparison v > 0 as pandas evaluates it elementwise: NaN compares
false. -/
def gt0 : PFloat → Bool
  | num a => decide (0 < a)
  | inf => true
  | _ => false

/-- The comparison v < 0 as pandas evaluates it elementwise: NaN compares
false. -/
def lt0 : PFloat → Bool
  | num a => decide (a < 0)
  | ninf => true
  | _ => false

end PFloat

/-- Series.diff(): NaN in front, consecutive differences after. -/
def pdiff (xs : List ℚ) : List PFloat :=
  match xs with
  | [] => []
  | _ :: _ => PFloat.nan :: List.zipWith (fun prev cur => PFloat.num (cur - prev)) xs xs.tail

/-- Series.where(cond, other): keep the value where cond holds, replace with
other where it does not (NaN entries fail every comparison, so they are
replaced). -/
def pwhere (cond : PFloat → Bool) (other : ℚ) (xs : List PFloat) : List PFloat :=
  xs.map (fun v => if cond v then v else PFloat.num other)

/-- Sum of a window, propagating NaN like pandas. -/
def psum (xs : List PFloat) : PFloat :=
  xs.foldr PFloat.add (PFloat.num 0)

/-- Series.rolling(window).mean() with the default min_periods = window:
NaN until the window is full, then the mean of the trailing window. -/
def rollingMean (window : ℕ) (xs : List PFloat) : List PFloat :=
  (List.range xs.length).map (fun i =>
    if i + 1 < window then PFloat.nan
    else PFloat.div (psum ((xs.take (i + 1)).drop (i + 1 - window))) (PFloat.num window))

/-- delta.where(delta > 0, 0) of calculate_rsi (market_data.py line 180). -/
def rsi_gain_base (close : List ℚ) : List PFloat :=
  pwhere PFloat.gt0 0 (pdiff close)

/-- -(delta.where(delta < 0, 0)) of calculate_rsi (market_data.py line 181). -/
def rsi_loss_base (close : List ℚ) : List PFloat :=
  (pwhere PFloat.lt0 0 (pdiff close)).map PFloat.neg

/-- gain = (...).rolling(window=period).mean() (market_data.py line 180). -/
def rsi_mean_gain (close : List ℚ) (period : ℕ) : List PFloat :=
  rollingMean period (rsi_gain_base close)

/-- loss = (...).rolling(window=period).mean() (market_data.py line 181). -/
def rsi_mean_loss (close : List ℚ) (period : ℕ) : List PFloat :=
  rollingMean period (rsi_loss_base close)

/-- Embedding of calculate_rsi (src/utils/market_data.py, lines 168-186):
rs = gain / loss and rsi = 100 - 100 / (1 + rs), elementwise with the
pandas NaN/Inf semantics. -/
def calculate_rsi (close : List ℚ) (period : ℕ) : List PFloat :=
  let rs := List.zipWith PFloat.div (rsi_mean_gain close period) (rsi_mean_loss close period)
  rs.map (fun r =>
    PFloat.sub (PFloat.num 100) (PFloat.div (PFloat.num 100) (PFloat.add (PFloat.num 1) r)))

theorem pdiff_length (xs : List ℚ) : (pdiff xs).length = xs.length := by
  cases xs with
  | nil => rfl
  | cons x rest =>
    simp [pdiff]

theorem rollingMean_length (w : ℕ) (xs : List PFloat) :
    (rollingMean w xs).length = xs.length := by
  simp [rollingMean]

/-- Pointwise description of rollingMean. -/
theorem rollingMean_getElem (w : ℕ) (xs : List PFloat) (i : ℕ) (h : i < xs.length) :
    (rollingMean w xs)[i]? = some (if i + 1 < w then PFloat.nan
      else PFloat.div (psum ((xs.take (i + 1)).drop (i + 1 - w))) (PFloat.num w)) := by
  simp [rollingMean, List.getElem?_range h]

/-- Every element of a zipWith comes from elements of the two inputs. -/
theorem mem_zipWith {α β γ : Type} {f : α → β → γ} :
    ∀ {as : List α} {bs : List β} {c : γ}, c ∈ List.zipWith f as bs →
      ∃ a b, a ∈ as ∧ b ∈ bs ∧ c = f a b := by
  intro as
  induction as with
  | nil => intro bs c hc; simp at hc
  | cons a as ih =>
    intro bs c hc
    cases bs with
    | nil => simp at hc
    | cons b bs =>
      rw [List.zipWith_cons_cons, List.mem_cons] at hc
      cases hc with
      | inl h => exact ⟨a, b, List.mem_cons_self a as, List.mem_cons_self b bs, h⟩
      | inr h =>
        obtain ⟨a', b', ha', hb', rfl⟩ := ih h
        exact ⟨a', b', List.mem_cons_of_mem a ha', List.mem_cons_of_mem b hb', rfl⟩

theorem pdiff_mem (xs : List ℚ) : ∀ v ∈ pdiff xs, v = PFloat.nan ∨ ∃ q, v = PFloat.num q := by
  intro v hv
  cases xs with
  | nil => simp [pdiff] at hv
  | cons x rest =>
    rw [pdiff, List.mem_cons] at hv
    cases hv with
    | inl h => exact Or.inl h
    | inr h =>
      obtain ⟨a, b, _, _, rfl⟩ := mem_zipWith h
      exact Or.inr ⟨b - a, rfl⟩

/-- Every gain entry is a nonnegative number (NaN deltas are replaced by 0). -/
theorem rsi_gain_base_mem (close : List ℚ) :
    ∀ v ∈ rsi_gain_base close, ∃ q, v = PFloat.num q ∧ 0 ≤ q := by
  intro v hv
  rw [rsi_gain_base, pwhere, List.mem_map] at hv
  obtain ⟨x, hx, rfl⟩ := hv
  rcases pdiff_mem close x hx with h | ⟨q, rfl⟩
  · subst h
    exact ⟨0, by simp [PFloat.gt0], le_refl 0⟩
  · by_cases hq : 0 < q
    · exact ⟨q, by simp [PFloat.gt0, hq], le_of_lt hq⟩
    · exact ⟨0, by simp [PFloat.gt0, hq], le_refl 0⟩

/-- Every loss entry is a nonnegative number. -/
theorem rsi_loss_base_mem (close : List ℚ) :
    ∀ v ∈ rsi_loss_base close, ∃ q, v = PFloat.num q ∧ 0 ≤ q := by
  intro v hv
  rw [rsi_loss_base, List.mem_map] at hv
  obtain ⟨w, hw, rfl⟩ := hv
  rw [pwhere, List.mem_map] at hw
  obtain ⟨x, hx, rfl⟩ := hw
  rcases pdiff_mem close x hx with h | ⟨q, rfl⟩
  · subst h
    refine ⟨-0, by simp [PFloat.lt0, PFloat.neg], ?_⟩
    norm_num
  · by_cases hq : q < 0
    · exact ⟨-q, by simp [PFloat.lt0, hq, PFloat.neg], by linarith⟩
    · refine ⟨-0, by simp [PFloat.lt0, hq, PFloat.neg], ?_⟩
      norm_num

theorem psum_nonneg : ∀ (l : List PFloat), (∀ v ∈ l, ∃ q, v = PFloat.num q ∧ 0 ≤ q) →
    ∃ s, psum l = PFloat.num s ∧ 0 ≤ s := by
  intro l
  induction l with
  | nil =>
    intro _
    exact ⟨0, rfl, le_refl 0⟩
  | cons v l ih =>
    intro h
    obtain ⟨q, hvq, hq⟩ := h v (List.mem_cons_self v l)
    obtain ⟨s, hs, hs0⟩ := ih (fun w hw => h w (List.mem_cons_of_mem v hw))
    refine ⟨q + s, ?_, by linarith⟩
    rw [psum, List.foldr_cons, hvq]
    rw [show l.foldr PFloat.add (PFloat.num 0) = psum l from rfl, hs]
    rfl

/-- A rolling mean of a nonnegative numeric series is NaN (window incomplete)
or a nonnegative number. -/
theorem rollingMean_shape (w : ℕ) (hw : 0 < w) (base : List PFloat)
    (hbase : ∀ v ∈ base, ∃ q, v = PFloat.num q ∧ 0 ≤ q) (i : ℕ) (v : PFloat)
    (hv : (rollingMean w base)[i]? = some v) :
    v = PFloat.nan ∨ ∃ q, v = PFloat.num q ∧ 0 ≤ q := by
  have hi : i < base.length := by
    by_contra hc
    rw [List.getElem?_eq_none (by rw [rollingMean_length]; omega)] at hv
    exact Option.noConfusion hv
  rw [rollingMean_getElem w base i hi] at hv
  rw [Option.some.injEq] at hv
  subst hv
  by_cases hcond : i + 1 < w
  · rw [if_pos hcond]
    exact Or.inl rfl
  · rw [if_neg hcond]
    obtain ⟨s, hs, hs0⟩ := psum_nonneg ((base.take (i + 1)).drop (i + 1 - w))
      (fun x hx => hbase x (List.mem_of_mem_take (List.mem_of_mem_drop hx)))
    rw [hs]
    have hwq : ((w : ℚ)) ≠ 0 := by
      exact_mod_cast Nat.pos_iff_ne_zero.1 hw
    refine Or.inr ⟨s / w, ?_, ?_⟩
    · simp [PFloat.div, hwq]
    · apply div_nonneg hs0
      exact_mod_cast Nat.zero_le w

/-- The map r to 100 - 100 / (1 + r) applied to a quotient of NaN-or-nonneg
values yields NaN or a number in [0, 100]. -/
theorem rsi_transform_shape (g l : PFloat)
    (hg : g = PFloat.nan ∨ ∃ q, g = PFloat.num q ∧ 0 ≤ q)
    (hl : l = PFloat.nan ∨ ∃ q, l = PFloat.num q ∧ 0 ≤ q) :
    PFloat.sub (PFloat.num 100)
        (PFloat.div (PFloat.num 100) (PFloat.add (PFloat.num 1) (PFloat.div g l))) =
      PFloat.nan ∨
    ∃ q, PFloat.sub (PFloat.num 100)
        (PFloat.div (PFloat.num 100) (PFloat.add (PFloat.num 1) (PFloat.div g l))) =
      PFloat.num q ∧ 0 ≤ q ∧ q ≤ 100 := by
  rcases hg with rfl | ⟨a, rfl, ha⟩
  · left
    cases l <;> rfl
  · rcases hl with rfl | ⟨b, rfl, hb⟩
    · left
      rfl
    · by_cases hb0 : b = 0
      · subst hb0
        by_cases ha0 : a = 0
        · subst ha0
          left
          norm_num [PFloat.div, PFloat.add, PFloat.sub]
        · have hapos : 0 < a := lt_of_le_of_ne ha (Ne.symm ha0)
          right
          refine ⟨100, ?_, by norm_num, by norm_num⟩
          norm_num [PFloat.div, PFloat.add, PFloat.sub, ha0, hapos]
      · have hbpos : 0 < b := lt_of_le_of_ne hb (Ne.symm hb0)
        have hq0 : (0 : ℚ) ≤ a / b := div_nonneg ha hb
        have hne : (1 : ℚ) + a / b ≠ 0 := by linarith
        right
        refine ⟨100 - 100 / (1 + a / b), ?_, ?_, ?_⟩
        · norm_num [PFloat.div, PFloat.add, PFloat.sub, hb0, hne]
        · have h1 : 100 / (1 + a / b) ≤ 100 := div_le_self (by norm_num) (by linarith)
          linarith
        · have h2 : (0 : ℚ) < 100 / (1 + a / b) := div_pos (by norm_num) (by linarith)
          linarith

theorem rsi_gain_base_length (close : List ℚ) :
    (rsi_gain_base close).length = close.length := by
  simp [rsi_gain_base, pwhere, pdiff_length]

theorem rsi_loss_base_length (close : List ℚ) :
    (rsi_loss_base close).length = close.length := by
  simp [rsi_loss_base, pwhere, pdiff_length]

theorem calculate_rsi_length (close : List ℚ) (period : ℕ) :
    (calculate_rsi close period).length = close.length := by
  simp [calculate_rsi, rsi_mean_gain, rsi_mean_loss, rollingMean_length,
    rsi_gain_base_length, rsi_loss_base_length]

/-- Every RSI entry is NaN or a number in [0, 100]. -/
theorem calculate_rsi_getElem_shape (close : List ℚ) (period : ℕ) (hp : 0 < period)
    (i : ℕ) (v : PFloat) (hv : (calculate_rsi close period)[i]? = some v) :
    v = PFloat.nan ∨ ∃ q, v = PFloat.num q ∧ 0 ≤ q ∧ q ≤ 100 := by
  simp only [calculate_rsi, List.getElem?_map] at hv
  cases hrs : (List.zipWith PFloat.div (rsi_mean_gain close period)
      (rsi_mean_loss close period))[i]? with
  | none =>
    rw [hrs] at hv
    simp at hv
  | some r =>
    rw [hrs] at hv
    simp only [Option.map_some', Option.some.injEq] at hv
    subst hv
    obtain ⟨g, l, hgi, hli, rfl⟩ := List.getElem?_zipWith_eq_some.1 hrs
    exact rsi_transform_shape g l
      (rollingMean_shape period hp _ (rsi_gain_base_mem close) i g hgi)
      (rollingMean_shape period hp _ (rsi_loss_base_mem close) i l hli)

/-- Before the window completes, RSI is NaN. -/
theorem calculate_rsi_early_nan (close : List ℚ) (period : ℕ) (i : ℕ)
    (hi : i < close.length) (hlt : i + 1 < period) :
    (calculate_rsi close period)[i]? = some PFloat.nan := by
  have hg : (rsi_mean_gain close period)[i]? = some PFloat.nan := by
    rw [rsi_mean_gain, rollingMean_getElem period _ i (by rw [rsi_gain_base_length]; exact hi)]
    rw [if_pos hlt]
  have hl : (rsi_mean_loss close period)[i]? = some PFloat.nan := by
    rw [rsi_mean_loss, rollingMean_getElem period _ i (by rw [rsi_loss_base_length]; exact hi)]
    rw [if_pos hlt]
  simp only [calculate_rsi, List.getElem?_map]
  rw [List.getElem?_zipWith_eq_some.2 ⟨PFloat.nan, PFloat.nan, hg, hl, rfl⟩]
  rfl

/-- When the rolling mean loss is 0 and the rolling mean gain is positive,
the division produces +Inf and RSI collapses to exactly 100. -/
theorem rsi_hundred (close : List ℚ) (period : ℕ) (i : ℕ) (g : ℚ)
    (hl : (rsi_mean_loss close period)[i]? = some (PFloat.num 0))
    (hg : (rsi_mean_gain close period)[i]? = some (PFloat.num g)) (hgpos : 0 < g) :
    (calculate_rsi close period)[i]? = some (PFloat.num 100) := by
  simp only [calculate_rsi, List.getElem?_map]
  rw [List.getElem?_zipWith_eq_some.2 ⟨PFloat.num g, PFloat.num 0, hg, hl, rfl⟩]
  have hgne : g ≠ 0 := ne_of_gt hgpos
  norm_num [PFloat.div, PFloat.add, PFloat.sub, hgne, hgpos]

theorem psum_zero : ∀ (l : List PFloat), (∀ w ∈ l, w = PFloat.num 0) →
    psum l = PFloat.num 0 := by
  intro l
  induction l with
  | nil =>
    intro _
    rfl
  | cons v l ih =>
    intro h
    rw [psum, List.foldr_cons, h v (List.mem_cons_self v l),
      show l.foldr PFloat.add (PFloat.num 0) = psum l from rfl,
      ih (fun w hw => h w (List.mem_cons_of_mem v hw))]
    norm_num [PFloat.add]

theorem pdiff_replicate_mem (n : ℕ) (c : ℚ) :
    ∀ v ∈ pdiff (List.replicate n c), v = PFloat.nan ∨ v = PFloat.num 0 := by
  intro v hv
  cases n with
  | zero => simp [pdiff] at hv
  | succ m =>
    rw [List.replicate_succ] at hv
    rw [show pdiff (c :: List.replicate m c) = PFloat.nan ::
        List.zipWith (fun prev cur => PFloat.num (cur - prev)) (c :: List.replicate m c)
          (c :: List.replicate m c).tail from rfl, List.mem_cons] at hv
    cases hv with
    | inl h => exact Or.inl h
    | inr h =>
      obtain ⟨a, b, ha, hb, rfl⟩ := mem_zipWith h
      have ha' : a = c := by
        rw [← List.replicate_succ] at ha
        exact List.eq_of_mem_replicate ha
      have hb' : b = c := List.eq_of_mem_replicate hb
      subst ha'
      subst hb'
      right
      norm_num

theorem rsi_gain_base_replicate (n : ℕ) (c : ℚ) :
    ∀ w ∈ rsi_gain_base (List.replicate n c), w = PFloat.num 0 := by
  intro w hw
  rw [rsi_gain_base, pwhere, List.mem_map] at hw
  obtain ⟨x, hx, rfl⟩ := hw
  rcases pdiff_replicate_mem n c x hx with rfl | rfl
  · simp [PFloat.gt0]
  · norm_num [PFloat.gt0]

theorem rsi_loss_base_replicate (n : ℕ) (c : ℚ) :
    ∀ w ∈ rsi_loss_base (List.replicate n c), w = PFloat.num 0 := by
  intro w hw
  rw [rsi_loss_base, List.mem_map] at hw
  obtain ⟨u, hu, rfl⟩ := hw
  rw [pwhere, List.mem_map] at hu
  obtain ⟨x, hx, rfl⟩ := hu
  rcases pdiff_replicate_mem n c x hx with rfl | rfl
  · norm_num [PFloat.lt0, PFloat.neg]
  · norm_num [PFloat.lt0, PFloat.neg]

theorem rollingMean_zero_base (w : ℕ) (hw : 0 < w) (base : List PFloat)
    (hbase : ∀ x ∈ base, x = PFloat.num 0) (j : ℕ) (u : PFloat)
    (hu : (rollingMean w base)[j]? = some u) : u = PFloat.nan ∨ u = PFloat.num 0 := by
  have hj : j < base.length := by
    by_contra hc
    rw [List.getElem?_eq_none (by rw [rollingMean_length]; omega)] at hu
    exact Option.noConfusion hu
  rw [rollingMean_getElem w base j hj, Option.some.injEq] at hu
  subst hu
  by_cases hcond : j + 1 < w
  · rw [if_pos hcond]
    exact Or.inl rfl
  · rw [if_neg hcond]
    rw [psum_zero _ (fun x hx => hbase x (List.mem_of_mem_take (List.mem_of_mem_drop hx)))]
    right
    have hwq : ((w : ℚ)) ≠ 0 := by
      exact_mod_cast Nat.pos_iff_ne_zero.1 hw
    norm_num [PFloat.div, hwq]

/-- RSI of a constant close series is NaN everywhere: both rolling means are 0
once the window completes, and 0 / 0 propagates NaN. -/
theorem rsi_const_nan (n : ℕ) (c : ℚ) (period : ℕ) (hp : 0 < period) (i : ℕ) (v : PFloat)
    (hv : (calculate_rsi (List.replicate n c) period)[i]? = some v) : v = PFloat.nan := by
  simp only [calculate_rsi, List.getElem?_map] at hv
  cases hrs : (List.zipWith PFloat.div (rsi_mean_gain (List.replicate n c) period)
      (rsi_mean_loss (List.replicate n c) period))[i]? with
  | none =>
    rw [hrs] at hv
    simp at hv
  | some r =>
    rw [hrs] at hv
    simp only [Option.map_some', Option.some.injEq] at hv
    subst hv
    obtain ⟨g, l, hgi, hli, rfl⟩ := List.getElem?_zipWith_eq_some.1 hrs
    have hgshape := rollingMean_zero_base period hp _ (rsi_gain_base_replicate n c) i g hgi
    have hlshape := rollingMean_zero_base period hp _ (rsi_loss_base_replicate n c) i l hli
    rcases hgshape with rfl | rfl
    · rcases hlshape with rfl | rfl <;> rfl
    · rcases hlshape with rfl | rfl
      · rfl
      · norm_num [PFloat.div, PFloat.add, PFloat.sub]

/-- C7 amended: RSI is NaN (undefined) for the first 13 bars; once defined it
is a number in [0, 100]; when the rolling mean loss is 0 and the rolling mean
gain is positive the value is exactly 100 (via Inf propagation, market_data.py
lines 183-184); but for a constant close series, where both rolling means are
0, every entry is NaN (0/0), not 100 -- and the first defined value appears at
the 14th bar (index 13), not after it. -/
theorem claim_C7 (close : List ℚ) (i : ℕ) :
    (i < 13 → i < close.length → (calculate_rsi close 14)[i]? = some PFloat.nan) ∧
    (∀ v, (calculate_rsi close 14)[i]? = some v →
      v = PFloat.nan ∨ ∃ q, v = PFloat.num q ∧ 0 ≤ q ∧ q ≤ 100) ∧
    (∀ g, (rsi_mean_loss close 14)[i]? = some (PFloat.num 0) →
      (rsi_mean_gain close 14)[i]? = some (PFloat.num g) → 0 < g →
      (calculate_rsi close 14)[i]? = some (PFloat.num 100)) ∧
    (∀ (n : ℕ) (c : ℚ), close = List.replicate n c →
      ∀ v, (calculate_rsi close 14)[i]? = some v → v = PFloat.nan) := by
  refine ⟨?_, ?_, ?_, ?_⟩
  · intro h13 hlen
    exact calculate_rsi_early_nan close 14 i hlen (by omega)
  · intro v hv
    exact calculate_rsi_getElem_shape close 14 (by norm_num) i v hv
  · intro g hl hg hgpos
    exact rsi_hundred close 14 i g hl hg hgpos
  · intro n c hrepl v hv
    subst hrepl
    exact rsi_const_nan n c 14 (by norm_num) i v hv

/-- A strictly increasing 14-bar close series. -/
def closeInc : List ℚ := [1, 2, 3, 4, 5, 6, 7, 8, 9, 10, 11, 12, 13, 14]

theorem closeInc_gain_base : rsi_gain_base closeInc =
    [PFloat.num 0, PFloat.num 1, PFloat.num 1, PFloat.num 1, PFloat.num 1, PFloat.num 1,
     PFloat.num 1, PFloat.num 1, PFloat.num 1, PFloat.num 1, PFloat.num 1, PFloat.num 1,
     PFloat.num 1, PFloat.num 1] := by
  norm_num [rsi_gain_base, pwhere, pdiff, closeInc, PFloat.gt0]

theorem closeInc_loss_base : rsi_loss_base closeInc =
    List.replicate 14 (PFloat.num 0) := by
  norm_num [rsi_loss_base, pwhere, pdiff, closeInc, PFloat.lt0, PFloat.neg,
    List.replicate]

theorem closeInc_mean_gain : (rsi_mean_gain closeInc 14)[13]? =
    some (PFloat.num (13 / 14)) := by
  rw [rsi_mean_gain, rollingMean_getElem 14 _ 13 (by rw [rsi_gain_base_length]; decide)]
  rw [closeInc_gain_base]
  norm_num [psum, PFloat.add, PFloat.div]

theorem closeInc_mean_loss : (rsi_mean_loss closeInc 14)[13]? =
    some (PFloat.num 0) := by
  rw [rsi_mean_loss, rollingMean_getElem 14 _ 13 (by rw [rsi_loss_base_length]; decide)]
  rw [closeInc_loss_base]
  norm_num [psum, PFloat.add, PFloat.div, List.replicate]

/-- C7 counterexample: for the constant 14-bar series the RSI at the completed
window (index 13) is NaN, not 100, although the rolling mean loss there is 0;
and for a strictly increasing 14-bar series the RSI is already defined (and
equal to 100) at the 14th bar, index 13, contradicting "undefined for the
first 14 bars". -/
theorem claim_C7_counterexample :
    (calculate_rsi (List.replicate 14 (5 : ℚ)) 14)[13]? = some PFloat.nan ∧
    (calculate_rsi closeInc 14)[13]? = some (PFloat.num 100) := by
  constructor
  · have hlen : 13 < (calculate_rsi (List.replicate 14 (5 : ℚ)) 14).length := by
      rw [calculate_rsi_length, List.length_replicate]
      norm_num
    have h := List.getElem?_eq_getElem hlen
    rw [h, rsi_const_nan 14 5 14 (by norm_num) 13 _ h]
  · exact rsi_hundred closeInc 14 13 (13 / 14) closeInc_mean_loss closeInc_mean_gain
      (by norm_num)

theorem claim_C7_witness :
    (rsi_mean_loss closeInc 14)[13]? = some (PFloat.num 0) ∧
    (rsi_mean_gain closeInc 14)[13]? = some (PFloat.num (13 / 14)) ∧
    (0 : ℚ) < 13 / 14 ∧
    (calculate_rsi closeInc 14)[13]? = some (PFloat.num 100) :=
  ⟨closeInc_mean_loss, closeInc_mean_gain, by norm_num,
    (claim_C7 closeInc 13).2.2.1 (13 / 14) closeInc_mean_loss closeInc_mean_gain
      (by norm_num)⟩
